import Mathlib

/-!
Verification of the akm key manager core against its specification.

The Go sources are embedded shallowly:
* `internal/core/crypto.go` — the Fernet-based crypto engine (`KeyEncryption`).
  The third-party Fernet library is modelled as an ideal authenticated
  encryption scheme: a token records the key it was produced with, a fresh
  IV drawn from a randomness stream (modelled as a counter, so two tokens
  produced by consecutive calls never coincide), and the payload;
  `VerifyAndDecrypt` recovers the payload exactly when the token was made
  with the same master key and was not corrupted.  The base64 layer of
  `Encrypt`/`Decrypt` is a bijection and is elided; an undecodable or
  corrupted blob is the `Ciphertext.garbage` constructor.
* `internal/models/key.go` — `APIKey`, `KeyUsageLog`, `KeysFile`.
  Timestamps are abstracted to `Nat`; the current time is passed explicitly
  to every operation that reads the clock.
* the storage file of package `core` (`KeyStorage`: AddKey, UpdateKey,
  DeleteKey, GetKeyValue, ListKeys, saveKeys, loadKeys, logUsage,
  VerifyAuditLogs, ValidateKeyName).
* `internal/core/budget.go` — `BudgetTracker`.  The formatted date strings
  `"2006-01-02"` / `"2006-01"` for the current day and month are passed
  explicitly.
* the proxy file of package `http` (`resolveProvider`, `selectKey`,
  `proxyHandler`, `providerRoutes`, `modelPrefixMap`).
* the verifier file of package `core` (`VerifyKey`, `VerifyAll`).
  The outbound HTTP call is an oracle parameter.

Go maps are modelled as association lists; Go's `error` returns are
`Except String`.
-/

namespace AKM

deriving instance DecidableEq for Except

/-! ### Crypto engine (internal/core/crypto.go) -/

/-- Model of a decoded Fernet token: the id of the (master) key that produced
it, the random IV, and the plaintext payload.  The payload type is a
parameter because the store encrypts both raw string values and the whole
serialized keys file (the JSON marshalling layer is a bijection and elided). -/
structure FernetToken (α : Type) where
  keyId : Nat
  iv : Nat
  payload : α
deriving DecidableEq

/-- A ciphertext as passed around by the Go code (a base64 string there):
either a well-formed Fernet token or an undecodable / corrupted blob. -/
inductive Ciphertext (α : Type) where
  | token (t : FernetToken α)
  | garbage
deriving DecidableEq

/-- KeyEncryption from crypto.go: holds the master key (none before
`Initialize` or after `ResetMasterKey`) and the randomness stream feeding
fresh IVs, modelled as a counter. -/
structure KeyEncryption where
  masterKey : Option Nat
  ivCounter : Nat
deriving DecidableEq

/-- Encrypt from crypto.go: fails when the engine is not initialized,
otherwise returns `fernet.EncryptAndSign` of the plaintext under the master
key with a fresh IV. -/
def KeyEncryption.Encrypt {α : Type} (k : KeyEncryption) (plaintext : α) :
    Except String (Ciphertext α) × KeyEncryption :=
  match k.masterKey with
  | none => (.error "encryption system not initialized", k)
  | some mkey =>
    (.ok (.token ⟨mkey, k.ivCounter, plaintext⟩), { k with ivCounter := k.ivCounter + 1 })

/-- Decrypt from crypto.go: fails when the engine is not initialized, when
the blob does not decode to a token, or when `fernet.VerifyAndDecrypt`
rejects it (token produced under a different master key). -/
def KeyEncryption.Decrypt {α : Type} (k : KeyEncryption) (c : Ciphertext α) :
    Except String α :=
  match k.masterKey with
  | none => .error "encryption system not initialized"
  | some mkey =>
    match c with
    | .garbage => .error "failed to decode ciphertext"
    | .token t =>
      if t.keyId = mkey then .ok t.payload
      else .error "decryption failed: invalid token or key"

/-- Model of the HMAC-SHA256 tag computed by SignMessage; the hash itself is
modelled as an ideal MAC (an encoding of key and message). -/
def macTag (mk : Nat) (message : String) : String :=
  "hmac-sha256:" ++ toString mk ++ ":" ++ message

/-- SignMessage from crypto.go: HMAC-SHA256 of the message under the raw
master-key bytes. -/
def KeyEncryption.SignMessage (k : KeyEncryption) (message : String) :
    Except String String :=
  match k.masterKey with
  | none => .error "encryption system not initialized"
  | some mkey => .ok (macTag mkey message)

/-- VerifySignature from crypto.go: recomputes the MAC and compares
(constant-time in Go).  The Go callers discard the error component, so the
model returns the boolean with `false` on a signing error. -/
def KeyEncryption.VerifySignature (k : KeyEncryption) (message signature : String) :
    Bool :=
  match k.SignMessage message with
  | .error _ => false
  | .ok expected => signature == expected

/-! ### Key-name validation (storage file of package core) -/

/-- Character class `[A-Za-z_]`, the first character of
`validKeyNamePattern`. -/
def isKeyNameStart (c : Char) : Bool :=
  c.isAlpha || c == '_'

/-- Character class `[A-Za-z0-9_]`, the tail characters of
`validKeyNamePattern`. -/
def isKeyNameRest (c : Char) : Bool :=
  c.isAlphanum || c == '_'

/-- Matching of the anchored regexp `^[A-Za-z_][A-Za-z0-9_]*$` against a
rune sequence. -/
def matchesKeyNamePattern : List Char → Bool
  | [] => false
  | c :: cs => isKeyNameStart c && cs.all isKeyNameRest

/-- ValidateKeyName from the storage file: rejects the empty string and any
name longer than 256 bytes (Go `len` counts UTF-8 bytes), then matches the
anchored pattern. -/
def ValidateKeyName (name : String) : Bool :=
  if name == "" || name.utf8ByteSize > 256 then false
  else matchesKeyNamePattern name.data

/-! ### Data model (internal/models/key.go) -/

/-- APIKey from internal/models/key.go.  `valueEncrypted` is the ciphertext
of the secret value; timestamps are `Nat`. -/
structure APIKey where
  name : String
  valueEncrypted : Ciphertext String
  provider : String
  description : Option String := none
  sourceProject : Option String := none
  tags : List String := []
  createdAt : Nat
  updatedAt : Nat
  expiresAt : Option Nat := none
  isActive : Bool
  modelVersion : Option String := none
  modelName : Option String := none
  modelCapabilities : List String := []
deriving DecidableEq

/-- NewAPIKey from internal/models/key.go: fresh record, active, created and
updated now. -/
def NewAPIKey (now : Nat) (name : String) (valueEncrypted : Ciphertext String)
    (provider : String) : APIKey :=
  { name := name
    valueEncrypted := valueEncrypted
    provider := provider
    tags := []
    createdAt := now
    updatedAt := now
    isActive := true
    modelCapabilities := [] }

/-- KeyUsageLog from internal/models/key.go: one audit entry.  `signature`
is `none` when the JSON field is absent (legacy / unsigned entries). -/
structure KeyUsageLog where
  keyName : String
  project : String
  action : String
  timestamp : Nat
  signature : Option String
deriving DecidableEq

/-- Contents of the decrypted keys file (KeysFile from
internal/models/key.go): version, update time and the record list. -/
structure KeysFileData where
  version : String
  updatedAt : Nat
  keys : List APIKey
deriving DecidableEq

/-! ### Go map model

Go maps are modelled as association lists with the usual lookup / insert /
delete operations.  (Go map iteration order is unspecified; the model
iterates in list order, which the claims do not depend on.) -/

/-- Lookup in a Go map modelled as an association list. -/
def lookupMap {β : Type} (m : List (String × β)) (k : String) : Option β :=
  (m.find? (fun p => p.1 == k)).map (·.2)

/-- Go `m[k] = v`: replace the binding if present, else append it. -/
def insertMap {β : Type} (m : List (String × β)) (k : String) (v : β) :
    List (String × β) :=
  if (m.find? (fun p => p.1 == k)).isSome then
    m.map (fun p => if p.1 == k then (k, v) else p)
  else m ++ [(k, v)]

/-- Go `delete(m, k)`. -/
def eraseMap {β : Type} (m : List (String × β)) (k : String) :
    List (String × β) :=
  m.filter (fun p => !(p.1 == k))

/-! ### Key storage (storage file of package core) -/

/-- On-disk contents of keys.json: either the legacy plaintext JSON format
(recognized by a nonempty `version` field) or an encrypted blob (anything
else is given to Decrypt, so a corrupt file is a `garbage` blob). -/
inductive KeysFileOnDisk where
  | legacy (kf : KeysFileData)
  | blob (c : Ciphertext KeysFileData)
deriving DecidableEq

/-- One line of audit.jsonl as seen by VerifyAuditLogs: blank, not valid
JSON for a KeyUsageLog, or a parsed entry. -/
inductive AuditLine where
  | empty
  | malformed
  | entry (log : KeyUsageLog)
deriving DecidableEq

/-- KeyStorage from the storage file of package core, together with the part
of the file system it owns.  `keysFile` and `auditLog` are the on-disk keys
file and the parsed lines of audit.jsonl; `diskFails` models a failing
write/rename of the keys file and `auditFails` a failing append to the audit
file.  `auditErrors` is the package-level `AuditErrors` counter. -/
structure KeyStorage where
  keysCache : List (String × APIKey)
  loadFailed : Bool
  crypto : KeyEncryption
  keysFile : Option KeysFileOnDisk
  auditLog : List AuditLine
  diskFails : Bool
  auditFails : Bool
  auditErrors : Nat
deriving DecidableEq

/-- Canonical JSON of the signed field tuple built by logUsage and
VerifyAuditLogs (`json.Marshal` of the anonymous struct with key_name,
project, action, timestamp); modelled as an injective encoding. -/
def logCanonicalJSON (keyName project action : String) (timestamp : Nat) :
    String :=
  String.intercalate "|" [keyName, project, action, toString timestamp]

/-- logUsage from the storage file: build the entry, sign it (ignoring a
signing error, which leaves an empty signature string), and append it to the
audit file; an append failure only bumps `AuditErrors`. -/
def KeyStorage.logUsage (s : KeyStorage) (now : Nat)
    (keyName action project : String) : KeyStorage :=
  let json := logCanonicalJSON keyName project action now
  let signature :=
    match s.crypto.SignMessage json with
    | .error _ => ""
    | .ok sig => sig
  let log : KeyUsageLog :=
    { keyName := keyName, project := project, action := action,
      timestamp := now, signature := some signature }
  if s.auditFails then { s with auditErrors := s.auditErrors + 1 }
  else { s with auditLog := s.auditLog ++ [.entry log] }

/-- loadKeys from the storage file: a missing file is an empty store; a
legacy plaintext file is imported as-is; otherwise the file is decrypted and
the records are put in the cache keyed by name. -/
def loadKeys (crypto : KeyEncryption) (file : Option KeysFileOnDisk) :
    Except String (List (String × APIKey)) :=
  match file with
  | none => .ok []
  | some (.legacy kf) =>
    .ok (kf.keys.foldl (fun m key => insertMap m key.name key) [])
  | some (.blob c) =>
    match crypto.Decrypt c with
    | .error e => .error ("failed to decrypt keys file: " ++ e)
    | .ok kf => .ok (kf.keys.foldl (fun m key => insertMap m key.name key) [])

/-- NewKeyStorage from the storage file: build the store and load the keys
file; a load failure is logged, leaves the cache empty and sets
`loadFailed` instead of failing construction. -/
def NewKeyStorage (crypto : KeyEncryption) (file : Option KeysFileOnDisk)
    (diskFails auditFails : Bool) : KeyStorage :=
  match loadKeys crypto file with
  | .error _ =>
    { keysCache := [], loadFailed := true, crypto := crypto, keysFile := file,
      auditLog := [], diskFails := diskFails, auditFails := auditFails,
      auditErrors := 0 }
  | .ok cache =>
    { keysCache := cache, loadFailed := false, crypto := crypto,
      keysFile := file, auditLog := [], diskFails := diskFails,
      auditFails := auditFails, auditErrors := 0 }

/-- saveKeys from the storage file: refuse when the load failed, serialize
and encrypt the cache, then write-temp-and-rename (modelled by `diskFails`;
on either write or rename failure the committed file is untouched). -/
def KeyStorage.saveKeys (s : KeyStorage) (now : Nat) :
    Except String Unit × KeyStorage :=
  if s.loadFailed then
    (.error "refusing to save: keys file failed to load, saving may cause data loss", s)
  else
    let kf : KeysFileData :=
      { version := "2.0", updatedAt := now, keys := s.keysCache.map (·.2) }
    match s.crypto.Encrypt kf with
    | (.error e, crypto') =>
      (.error ("failed to encrypt keys: " ++ e), { s with crypto := crypto' })
    | (.ok blob, crypto') =>
      if s.diskFails then
        (.error "failed to write temp file", { s with crypto := crypto' })
      else
        (.ok (), { s with crypto := crypto', keysFile := some (.blob blob) })

/-- KeyOption from the storage file (WithDescription, WithSourceProject,
WithTags): a functional option mutating the fresh record. -/
def KeyOption : Type := APIKey → APIKey

/-- WithDescription functional option. -/
def WithDescription (desc : String) : KeyOption :=
  fun k => { k with description := some desc }

/-- WithSourceProject functional option. -/
def WithSourceProject (project : String) : KeyOption :=
  fun k => { k with sourceProject := some project }

/-- WithTags functional option. -/
def WithTags (tags : List String) : KeyOption :=
  fun k => { k with tags := tags }

/-- AddKey from the storage file: validate the name, encrypt the value,
insert the record, persist; on a persistence failure the inserted name is
deleted from the cache (`delete(s.keysCache, name)`) and the error
returned; on success one "add" audit entry is appended. -/
def KeyStorage.AddKey (s : KeyStorage) (now : Nat)
    (name value provider : String) (opts : List KeyOption) :
    Except String APIKey × KeyStorage :=
  if ¬ ValidateKeyName name then
    (.error ("invalid key name '" ++ name ++ "': must start with letter or underscore, contain only alphanumerics and underscores, max 256 chars"), s)
  else
    match s.crypto.Encrypt value with
    | (.error e, crypto') =>
      (.error ("failed to encrypt key value: " ++ e), { s with crypto := crypto' })
    | (.ok encrypted, crypto') =>
      let key := opts.foldl (fun k opt => opt k) (NewAPIKey now name encrypted provider)
      let s1 : KeyStorage :=
        { s with crypto := crypto', keysCache := insertMap s.keysCache name key }
      match s1.saveKeys now with
      | (.error e, s2) =>
        (.error e, { s2 with keysCache := eraseMap s2.keysCache name })
      | (.ok _, s2) =>
        (.ok key, s2.logUsage now name "add" "system")

/-- The loosely-typed `updates` map taken by UpdateKey, as the set of fields
the Go code reads out of it (a missing or wrongly-typed entry leaves the
field alone). -/
structure KeyUpdates where
  provider : Option String := none
  description : Option String := none
  sourceProject : Option String := none
  tags : Option (List String) := none
  isActive : Option Bool := none

/-- The field assignments of UpdateKey (its `if v, ok := updates[...]`
lines) followed by the `UpdatedAt` stamp. -/
def applyKeyUpdates (key : APIKey) (updates : KeyUpdates) (now : Nat) :
    APIKey :=
  let key :=
    match updates.provider with
    | some v => { key with provider := v }
    | none => key
  let key :=
    match updates.description with
    | some v => { key with description := some v }
    | none => key
  let key :=
    match updates.sourceProject with
    | some v => { key with sourceProject := some v }
    | none => key
  let key :=
    match updates.tags with
    | some v => { key with tags := v }
    | none => key
  let key :=
    match updates.isActive with
    | some v => { key with isActive := v }
    | none => key
  { key with updatedAt := now }

/-- UpdateKey from the storage file: apply the updates to the record in the
cache, stamp `updatedAt`, persist; a persistence failure returns the error
with the in-memory mutation still applied (the Go code has no rollback
here); on success one "update" audit entry is appended. -/
def KeyStorage.UpdateKey (s : KeyStorage) (now : Nat) (name : String)
    (updates : KeyUpdates) : Except String APIKey × KeyStorage :=
  match lookupMap s.keysCache name with
  | none => (.error ("key '" ++ name ++ "' not found"), s)
  | some key =>
    let key := applyKeyUpdates key updates now
    let s1 : KeyStorage := { s with keysCache := insertMap s.keysCache name key }
    match s1.saveKeys now with
    | (.error e, s2) => (.error e, s2)
    | (.ok _, s2) => (.ok key, s2.logUsage now name "update" "system")

/-- DeleteKey from the storage file: remove the record, persist; a
persistence failure returns the error with the record already removed from
the cache (the Go code has no rollback here); on success one "delete" audit
entry is appended. -/
def KeyStorage.DeleteKey (s : KeyStorage) (now : Nat) (name : String) :
    Except String Unit × KeyStorage :=
  match lookupMap s.keysCache name with
  | none => (.error ("key '" ++ name ++ "' not found"), s)
  | some _ =>
    let s1 : KeyStorage := { s with keysCache := eraseMap s.keysCache name }
    match s1.saveKeys now with
    | (.error e, s2) => (.error e, s2)
    | (.ok _, s2) => (.ok (), s2.logUsage now name "delete" "system")

/-- GetKeyValue from the storage file: look the record up, decrypt its
value, log a "read" entry with the caller's project tag. -/
def KeyStorage.GetKeyValue (s : KeyStorage) (now : Nat)
    (name project : String) : Except String String × KeyStorage :=
  match lookupMap s.keysCache name with
  | none => (.error ("key '" ++ name ++ "' not found"), s)
  | some key =>
    match s.crypto.Decrypt key.valueEncrypted with
    | .error e => (.error ("failed to decrypt key '" ++ name ++ "': " ++ e), s)
    | .ok value => (.ok value, s.logUsage now name "read" project)

/-- ListKeys from the storage file: all records, optionally filtered by
provider (empty string means no filter). -/
def KeyStorage.ListKeys (s : KeyStorage) (provider : String) : List APIKey :=
  (s.keysCache.map (·.2)).filter
    (fun key => provider == "" || key.provider == provider)

/-- One iteration of the VerifyAuditLogs loop: skip a blank line, count an
unparseable line as tampered, an entry with a missing or empty signature as
unsigned, and otherwise recompute the MAC over the canonical tuple. -/
def verifyAuditStep (crypto : KeyEncryption) (acc : Nat × Nat × Nat × Nat)
    (line : AuditLine) : Nat × Nat × Nat × Nat :=
  let (total, verified, unsigned, tampered) := acc
  match line with
  | .empty => acc
  | .malformed => (total + 1, verified, unsigned, tampered + 1)
  | .entry log =>
    match log.signature with
    | none => (total + 1, verified, unsigned + 1, tampered)
    | some sig =>
      if sig == "" then (total + 1, verified, unsigned + 1, tampered)
      else
        let json := logCanonicalJSON log.keyName log.project log.action log.timestamp
        if crypto.VerifySignature json sig then
          (total + 1, verified + 1, unsigned, tampered)
        else
          (total + 1, verified, unsigned, tampered + 1)

/-- VerifyAuditLogs from the storage file: fold the loop body over the
lines of the audit file.  Returns (total, verified, unsigned, tampered). -/
def KeyStorage.VerifyAuditLogs (s : KeyStorage) : Nat × Nat × Nat × Nat :=
  s.auditLog.foldl (verifyAuditStep s.crypto) (0, 0, 0, 0)

/-! ### Budget tracker (internal/core/budget.go)

The tracker's asynchronous best-effort save after `Record` does not touch
the counters and is elided; `today` is `time.Now().Format("2006-01-02")`
and `month` is `time.Now().Format("2006-01")`, passed explicitly. -/

/-- BudgetConfig from budget.go: per-provider limits, 0 = unlimited
(int64 in Go). -/
structure BudgetConfig where
  dailyLimit : Int
  monthlyLimit : Int
deriving DecidableEq

/-- providerCounter from budget.go. -/
structure ProviderCounter where
  dailyCount : Int
  monthlyCount : Int
  dailyDate : String
  monthlyDate : String
deriving DecidableEq

/-- BudgetTracker from budget.go: the two maps it owns. -/
structure BudgetTracker where
  config : List (String × BudgetConfig)
  counters : List (String × ProviderCounter)
deriving DecidableEq

/-- getOrResetCounter from budget.go: the stored counter, or a zero value
(which is never written back) when none exists. -/
def BudgetTracker.getOrResetCounter (bt : BudgetTracker) (provider : String) :
    ProviderCounter :=
  match lookupMap bt.counters provider with
  | none => { dailyCount := 0, monthlyCount := 0, dailyDate := "", monthlyDate := "" }
  | some c => c

/-- Check from budget.go: passes when no config exists; otherwise compares
the current-period counters against the configured caps, treating a counter
whose stored date is not the current period as zero. -/
def BudgetTracker.Check (bt : BudgetTracker) (today month provider : String) :
    Except String Unit :=
  match lookupMap bt.config provider with
  | none => .ok ()
  | some cfg =>
    let counter := bt.getOrResetCounter provider
    if cfg.dailyLimit > 0 && counter.dailyDate == today &&
        counter.dailyCount ≥ cfg.dailyLimit then
      .error ("provider '" ++ provider ++ "' daily limit exceeded")
    else if cfg.monthlyLimit > 0 && counter.monthlyDate == month &&
        counter.monthlyCount ≥ cfg.monthlyLimit then
      .error ("provider '" ++ provider ++ "' monthly limit exceeded")
    else .ok ()

/-- Record from budget.go: roll the daily (monthly) counter to zero when the
stored date (month) differs from the current one, then increment both.  The
subsequent asynchronous best-effort save does not change the counters. -/
def BudgetTracker.Record (bt : BudgetTracker) (today month provider : String) :
    BudgetTracker :=
  let counter := bt.getOrResetCounter provider
  let counter :=
    if counter.dailyDate ≠ today then
      { counter with dailyCount := 0, dailyDate := today }
    else counter
  let counter :=
    if counter.monthlyDate ≠ month then
      { counter with monthlyCount := 0, monthlyDate := month }
    else counter
  let counter :=
    { counter with dailyCount := counter.dailyCount + 1,
                   monthlyCount := counter.monthlyCount + 1 }
  { bt with counters := insertMap bt.counters provider counter }

/-! ### String primitives used by the proxy and verifier

`strings.ToLower`, `strings.TrimSpace` and `strings.HasPrefix` are modelled
on rune lists (structurally, so they compute); the inputs these claims
exercise are ASCII, where Lean's `Char.toLower` and `Char.isWhitespace`
agree with Go's definitions. -/

/-- strings.ToLower. -/
def strToLower (s : String) : String :=
  String.mk (s.data.map Char.toLower)

/-- strings.TrimSpace. -/
def strTrim (s : String) : String :=
  String.mk
    (((s.data.dropWhile Char.isWhitespace).reverse.dropWhile
        Char.isWhitespace).reverse)

/-- strings.HasPrefix. -/
def strHasPfx (p s : String) : Bool :=
  p.data.isPrefixOf s.data

/-! ### Proxy router (proxy file of package http)

HTTP headers are modelled as association lists whose operations compare
names case-insensitively, matching Go's `http.Header` canonicalization of
MIME header keys (`Set`/`Del`/`Get` all canonicalize, so matching is
case-insensitive). -/

/-- An HTTP header map. -/
def Headers : Type := List (String × String)

/-- Header names compare case-insensitively. -/
def headerNameEq (a b : String) : Bool :=
  strToLower a == strToLower b

/-- Header lookup (`http.Header.Get`), `none` when absent. -/
def hGet (hs : Headers) (name : String) : Option String :=
  (List.find? (fun p => headerNameEq p.1 name) hs).map (·.2)

/-- Gin's `c.GetHeader`: the empty string when the header is absent. -/
def hGetD (hs : Headers) (name : String) : String :=
  (hGet hs name).getD ""

/-- Header set (`http.Header.Set`): replaces every value stored under the
name. -/
def hSet (hs : Headers) (name value : String) : Headers :=
  (name, value) :: List.filter (fun p => !(headerNameEq p.1 name)) hs

/-- Header delete (`http.Header.Del`). -/
def hDel (hs : Headers) (name : String) : Headers :=
  List.filter (fun p => !(headerNameEq p.1 name)) hs

/-- ProviderRoute from the proxy file. -/
structure ProviderRoute where
  baseURL : String
  authHeader : String
  authPfx : String
  extraHeaders : List (String × String)
deriving DecidableEq

/-- providerRoutes from the proxy file. -/
def providerRoutes (provider : String) : Option ProviderRoute :=
  match provider with
  | "openai" =>
    some { baseURL := "https://api.openai.com", authHeader := "Authorization",
           authPfx := "Bearer ", extraHeaders := [] }
  | "anthropic" =>
    some { baseURL := "https://api.anthropic.com", authHeader := "x-api-key",
           authPfx := "",
           extraHeaders := [("anthropic-version", "2023-06-01")] }
  | "deepseek" =>
    some { baseURL := "https://api.deepseek.com", authHeader := "Authorization",
           authPfx := "Bearer ", extraHeaders := [] }
  | "gemini" =>
    some { baseURL := "https://generativelanguage.googleapis.com",
           authHeader := "x-goog-api-key", authPfx := "", extraHeaders := [] }
  | "zhipu" =>
    some { baseURL := "https://open.bigmodel.cn/api/paas",
           authHeader := "Authorization", authPfx := "Bearer ",
           extraHeaders := [] }
  | _ => none

/-- modelPrefixMap from the proxy file (the prefixes are pairwise
incompatible, so Go's unspecified map iteration order is immaterial). -/
def modelPrefixMap : List (String × String) :=
  [("gpt-", "openai"), ("o1-", "openai"), ("o3-", "openai"),
   ("o4-", "openai"), ("claude-", "anthropic"), ("deepseek-", "deepseek"),
   ("gemini-", "gemini"), ("glm-", "zhipu")]

/-- resolveProvider from the proxy file.  `bodyModel` is the `model` field
of the JSON request body (`none` when the body does not parse as JSON), so
`json.Unmarshal` succeeding with a nonempty model is `some m` with
`m ≠ ""`. -/
def resolveProvider (header : String) (bodyModel : Option String) :
    Except String String :=
  if header ≠ "" then
    let h := strToLower (strTrim header)
    if (providerRoutes h).isSome then .ok h
    else .error ("unknown provider: " ++ h)
  else
    let fromBody :=
      match bodyModel with
      | some m =>
        if m ≠ "" then
          (modelPrefixMap.find? (fun p => strHasPfx p.1 (strToLower m))).map (·.2)
        else none
      | none => none
    match fromBody with
    | some provider => .ok provider
    | none =>
      .error "cannot determine provider: set X-AKM-Provider header or use a recognizable model name"

/-- Loop body of selectKey's provider branch: walk the provider's keys and
return the first active one whose value decrypts (a decrypt failure moves
on to the next key, mirroring the `continue`). -/
def selectKeyLoop (now : Nat) (provider : String) :
    List APIKey → KeyStorage → Except String String × KeyStorage
  | [], s => (.error ("no active key found for provider '" ++ provider ++ "'"), s)
  | k :: rest, s =>
    if k.isActive then
      match s.GetKeyValue now k.name "proxy" with
      | (.error _, s') => selectKeyLoop now provider rest s'
      | (.ok value, s') => (.ok value, s')
    else selectKeyLoop now provider rest s

/-- selectKey from the proxy file: an explicitly named key must decrypt;
otherwise the first active key of the provider whose value decrypts is used. -/
def selectKey (s : KeyStorage) (now : Nat) (provider keyName : String) :
    Except String String × KeyStorage :=
  if keyName ≠ "" then
    match s.GetKeyValue now keyName "proxy" with
    | (.error e, s') =>
      (.error ("key '" ++ keyName ++ "' not found or decrypt failed: " ++ e), s')
    | (.ok value, s') => (.ok value, s')
  else
    selectKeyLoop now provider (s.ListKeys provider) s

instance : DecidableEq Headers :=
  inferInstanceAs (DecidableEq (List (String × String)))

/-- An inbound proxied request: its headers and the `model` field of its
JSON body (`none` when the body is not JSON). -/
structure ProxyRequest where
  headers : Headers
  bodyModel : Option String
deriving DecidableEq

/-- What proxyHandler does with a request: reject it with an HTTP status
and error type, or forward it to the provider's base URL with the rewritten
headers.  (Budget `Record` fires in `ModifyResponse`, i.e. only once an
upstream response arrived, which is outside this function.) -/
inductive ProxyOutcome where
  | reject (status : Nat) (errType : String)
  | forward (baseURL : String) (headers : Headers)
deriving DecidableEq

/-- The Director of the reverse proxy built in proxyHandler: inject the
provider auth header, set the route's extra headers, strip the internal
X-AKM-* headers, and drop the caller's Authorization unless the provider's
own auth header is itself named Authorization. -/
def proxyDirector (route : ProviderRoute) (apiKey : String) (hs : Headers) :
    Headers :=
  let hs := hSet hs route.authHeader (route.authPfx ++ apiKey)
  let hs := route.extraHeaders.foldl (fun h p => hSet h p.1 p.2) hs
  let hs := hDel hs "X-AKM-Provider"
  let hs := hDel hs "X-AKM-Key"
  if route.authHeader ≠ "Authorization" then hDel hs "Authorization" else hs

/-- proxyHandler from the proxy file: resolve the provider (reject 400 on
failure, forwarding nothing), look up its route, check the budget (reject
429), select a key (reject 502), and otherwise forward through the reverse
proxy with the Director-rewritten headers.  `url.Parse` of the constant
base URLs cannot fail, so that 500 branch is dead and elided. -/
def proxyHandler (s : KeyStorage) (bt : BudgetTracker)
    (today month : String) (now : Nat) (req : ProxyRequest) :
    ProxyOutcome × KeyStorage :=
  let providerHeader := hGetD req.headers "X-AKM-Provider"
  match resolveProvider providerHeader req.bodyModel with
  | .error _ => (.reject 400 "invalid_request_error", s)
  | .ok provider =>
    match providerRoutes provider with
    | none => (.reject 400 "invalid_request_error", s)
    | some route =>
      match bt.Check today month provider with
      | .error _ => (.reject 429 "budget_exceeded", s)
      | .ok _ =>
        let keyName := hGetD req.headers "X-AKM-Key"
        match selectKey s now provider keyName with
        | (.error _, s') => (.reject 502 "key_error", s')
        | (.ok apiKey, s') =>
          (.forward route.baseURL (proxyDirector route apiKey req.headers), s')

/-! ### Verifier (verifier file of package core)

The outbound HTTP call (`client.Do`) is an oracle parameter mapping the
built request to a network error or a status code. -/

/-- The request a provider verifier builds. -/
structure HttpRequest where
  url : String
  headers : Headers
deriving DecidableEq

/-- Outcome of `client.Do`: a network error or an HTTP status code. -/
inductive HttpResult where
  | netError (msg : String)
  | status (code : Nat)
deriving DecidableEq

/-- VerifyResult from the verifier file (the optional model list is never
set by this code path and elided). -/
structure VerifyResult where
  name : String
  provider : String
  status : String
  message : String
deriving DecidableEq

/-- providerVerifiers from the verifier file: how to build the minimal
authenticated probe request per provider.  `http.NewRequest` on these
constant URLs cannot fail, so buildRequest is total here. -/
def providerVerifiers (provider : String) : Option (String → HttpRequest) :=
  match provider with
  | "openai" => some (fun apiKey =>
      { url := "https://api.openai.com/v1/models",
        headers := [("Authorization", "Bearer " ++ apiKey)] })
  | "anthropic" => some (fun apiKey =>
      { url := "https://api.anthropic.com/v1/models",
        headers := [("x-api-key", apiKey), ("anthropic-version", "2023-06-01")] })
  | "gemini" => some (fun apiKey =>
      { url := "https://generativelanguage.googleapis.com/v1beta/models",
        headers := [("x-goog-api-key", apiKey)] })
  | "deepseek" => some (fun apiKey =>
      { url := "https://api.deepseek.com/models",
        headers := [("Authorization", "Bearer " ++ apiKey)] })
  | "zhipu" => some (fun apiKey =>
      { url := "https://open.bigmodel.cn/api/paas/v4/models",
        headers := [("Authorization", "Bearer " ++ apiKey)] })
  | _ => none

/-- normalizeProvider from the verifier file, with the providerAliases map
inlined (google → gemini). -/
def normalizeProvider (provider : String) : String :=
  let p := strToLower provider
  match p with
  | "google" => "gemini"
  | _ => p

/-- VerifyKey from the verifier file: unrecognized provider → unsupported;
network failure → error; 200 → valid; 401/403 → invalid; any other status →
error. -/
def VerifyKey (doReq : HttpRequest → HttpResult)
    (name provider value : String) : VerifyResult :=
  match providerVerifiers (normalizeProvider provider) with
  | none =>
    { name := name, provider := provider, status := "unsupported",
      message := "provider '" ++ provider ++ "' 不支持自动验证" }
  | some buildRequest =>
    match doReq (buildRequest value) with
    | .netError e =>
      { name := name, provider := provider, status := "error",
        message := "请求失败: " ++ e }
    | .status code =>
      if code == 200 then
        { name := name, provider := provider, status := "valid",
          message := "密钥有效" }
      else if code == 401 || code == 403 then
        { name := name, provider := provider, status := "invalid",
          message := "密钥无效 (HTTP " ++ toString code ++ ")" }
      else
        { name := name, provider := provider, status := "error",
          message := "unexpected HTTP " ++ toString code }

/-- Write at an index of the results slice
(`results[idx] = ...`; out-of-range writes do not occur). -/
def setIdx {α : Type} : List (Option α) → Nat → α → List (Option α)
  | [], _, _ => []
  | _ :: rest, 0, v => some v :: rest
  | x :: rest, n + 1, v => x :: setIdx rest n v

/-- Body of one verification goroutine: decrypt the key's value (an error
becomes that key's own "error" result) and otherwise probe it. -/
def verifyOne (doReq : HttpRequest → HttpResult) (s : KeyStorage) (now : Nat)
    (keyName keyProvider : String) : VerifyResult × KeyStorage :=
  match s.GetKeyValue now keyName "verify" with
  | (.error e, s') =>
    ({ name := keyName, provider := keyProvider, status := "error",
       message := "解密失败: " ++ e }, s')
  | (.ok value, s') => (VerifyKey doReq keyName keyProvider value, s')

/-- The goroutines of VerifyAll: each writes its own slot `results[idx]`.
The goroutines are data-disjoint on the slice and the semaphore only bounds
how many run at once, so the slice they jointly produce equals this
sequential fill; the audit entries of the decrypts are threaded in input
order (their on-disk order is scheduler-dependent in Go, the results are
not). -/
def verifyFill (doReq : HttpRequest → HttpResult) (now : Nat) :
    List APIKey → Nat → List (Option VerifyResult) → KeyStorage →
    List (Option VerifyResult) × KeyStorage
  | [], _, results, s => (results, s)
  | k :: rest, idx, results, s =>
    let (res, s') := verifyOne doReq s now k.name k.provider
    verifyFill doReq now rest (idx + 1) (setIdx results idx res) s'

/-- The key selection of VerifyAll: the provider filter of ListKeys, then
the optional exact-name filter that keeps the first match. -/
def selectVerifyKeys (s : KeyStorage) (provider nameFilter : String) :
    List APIKey :=
  let keys := s.ListKeys provider
  if nameFilter ≠ "" then
    match keys.find? (fun k => k.name == nameFilter) with
    | some k => [k]
    | none => []
  else keys

/-- VerifyAll from the verifier file: select the keys, return nil for an
empty selection, otherwise allocate a nil-initialized results slice of the
same length, run the probes, wait for all of them, and return the slice. -/
def VerifyAll (s : KeyStorage) (doReq : HttpRequest → HttpResult) (now : Nat)
    (provider nameFilter : String) :
    List (Option VerifyResult) × KeyStorage :=
  let keys := selectVerifyKeys s provider nameFilter
  if keys.isEmpty then ([], s)
  else verifyFill doReq now keys 0 (List.replicate keys.length none) s

/-! ### C2 — encrypt/decrypt round trip, non-deterministic ciphertexts -/

/-- C2: on an initialized engine, for every plaintext `p`, decrypting the
result of `Encrypt p` returns `p` without error, and two separate calls to
`Encrypt p` produce different ciphertexts. -/
theorem C2_encrypt_decrypt_roundtrip_and_distinct
    (k : KeyEncryption) (mkey : Nat) (h : k.masterKey = some mkey)
    (p : String) :
    ∃ c1 c2 k1 k2,
      k.Encrypt p = (.ok c1, k1) ∧
      k1.Encrypt p = (.ok c2, k2) ∧
      c1 ≠ c2 ∧
      k1.Decrypt c1 = .ok p ∧
      k2.Decrypt c2 = .ok p := by
  refine ⟨.token ⟨mkey, k.ivCounter, p⟩, .token ⟨mkey, k.ivCounter + 1, p⟩,
    { k with ivCounter := k.ivCounter + 1 },
    { k with ivCounter := k.ivCounter + 2 }, ?_, ?_, ?_, ?_, ?_⟩ <;>
    simp [KeyEncryption.Encrypt, KeyEncryption.Decrypt, h]

/-- Witness for C2 at a concrete initialized engine and plaintext. -/
theorem C2_encrypt_decrypt_roundtrip_and_distinct_witness :
    (({ masterKey := some 7, ivCounter := 0 } : KeyEncryption).masterKey
      = some 7) ∧
    ∃ c1 c2 k1 k2,
      ({ masterKey := some 7, ivCounter := 0 } : KeyEncryption).Encrypt "sk-test"
        = (.ok c1, k1) ∧
      k1.Encrypt "sk-test" = (.ok c2, k2) ∧
      c1 ≠ c2 ∧
      k1.Decrypt c1 = .ok "sk-test" ∧
      k2.Decrypt c2 = .ok "sk-test" :=
  ⟨rfl, C2_encrypt_decrypt_roundtrip_and_distinct _ 7 rfl "sk-test"⟩

/-! ### C9 — key-name validation -/

/-- Character class `[A-Za-z_]` written directly from the claim's regex. -/
def specStartChar (c : Char) : Bool :=
  ('A' ≤ c && c ≤ 'Z') || ('a' ≤ c && c ≤ 'z') || c == '_'

/-- Character class `[A-Za-z0-9_]` written directly from the claim's regex. -/
def specRestChar (c : Char) : Bool :=
  ('A' ≤ c && c ≤ 'Z') || ('a' ≤ c && c ≤ 'z') ||
  ('0' ≤ c && c ≤ '9') || c == '_'

/-- Acceptance by the claim's regex `[A-Za-z_][A-Za-z0-9_]{0,255}`: one
start character followed by at most 255 tail characters.  This definition
follows the spec's words, to be compared with `ValidateKeyName` from the
source. -/
def specKeyNameMatches (name : String) : Bool :=
  match name.data with
  | [] => false
  | c :: cs => specStartChar c && cs.all specRestChar && decide (cs.length ≤ 255)

/-- The spec's start class and the code's agree. -/
theorem specStartChar_eq_isKeyNameStart (c : Char) :
    specStartChar c = isKeyNameStart c := by
  rw [Bool.eq_iff_iff]
  simp [specStartChar, isKeyNameStart, Char.isAlpha, Char.isUpper,
    Char.isLower, Char.le_def, or_assoc]

/-- The spec's tail class and the code's agree. -/
theorem specRestChar_eq_isKeyNameRest (c : Char) :
    specRestChar c = isKeyNameRest c := by
  rw [Bool.eq_iff_iff]
  simp [specRestChar, isKeyNameRest, Char.isAlphanum, Char.isAlpha,
    Char.isDigit, Char.isUpper, Char.isLower, Char.le_def, or_assoc]

/-- Every start character is also a tail character. -/
theorem isKeyNameStart_imp_rest {c : Char} (h : isKeyNameStart c = true) :
    isKeyNameRest c = true := by
  simp [isKeyNameStart, isKeyNameRest, Char.isAlphanum] at *
  tauto

/-- Characters of the name character classes are ASCII, hence one UTF-8
byte. -/
theorem isKeyNameRest_utf8Size {c : Char} (h : isKeyNameRest c = true) :
    c.utf8Size = 1 := by
  simp [isKeyNameRest, Char.isAlphanum, Char.isAlpha, Char.isDigit,
    Char.isUpper, Char.isLower] at h
  have hle : c.val ≤ UInt32.ofNatCore 127 Char.utf8Size.proof_1 := by
    have h127 : (UInt32.toBitVec (UInt32.ofNatCore 127 Char.utf8Size.proof_1)).toNat = 127 := rfl
    rw [UInt32.le_def, BitVec.le_def, h127]
    rcases h with ((⟨h1, h2⟩ | ⟨h1, h2⟩) | ⟨h1, h2⟩) | h1
    · rw [UInt32.le_def, BitVec.le_def] at h2
      have e : (UInt32.toBitVec 90).toNat = 90 := rfl
      omega
    · rw [UInt32.le_def, BitVec.le_def] at h2
      have e : (UInt32.toBitVec 122).toNat = 122 := rfl
      omega
    · rw [UInt32.le_def, BitVec.le_def] at h2
      have e : (UInt32.toBitVec 57).toNat = 57 := rfl
      omega
    · subst h1; decide
  unfold Char.utf8Size
  rw [if_pos hle]

/-- UTF-8 byte count of a rune list all of whose runes are one byte. -/
theorem utf8Go_eq_length (l : List Char) (h : ∀ c ∈ l, c.utf8Size = 1) :
    String.utf8ByteSize.go l = l.length := by
  induction l with
  | nil => rfl
  | cons c cs ih =>
    have e : String.utf8ByteSize.go (c :: cs)
        = String.utf8ByteSize.go cs + c.utf8Size := rfl
    rw [e, ih (fun d hd => h d (List.mem_cons_of_mem _ hd)),
      h c (List.mem_cons_self _ _)]
    simp

/-- A rune is at least one UTF-8 byte. -/
theorem one_le_utf8Size (c : Char) : 1 ≤ c.utf8Size := by
  unfold Char.utf8Size
  dsimp only
  split_ifs <;> omega

/-- Rune count never exceeds UTF-8 byte count. -/
theorem length_le_utf8Go (l : List Char) :
    l.length ≤ String.utf8ByteSize.go l := by
  induction l with
  | nil => simp [show String.utf8ByteSize.go [] = 0 from rfl]
  | cons c cs ih =>
    have e : String.utf8ByteSize.go (c :: cs)
        = String.utf8ByteSize.go cs + c.utf8Size := rfl
    have hc := one_le_utf8Size c
    rw [e]
    simp only [List.length_cons]
    omega

/-- ValidateKeyName in terms of the byte bound and the pattern. -/
theorem validateKeyName_eq_true_iff (name : String) :
    ValidateKeyName name = true ↔
      name.utf8ByteSize ≤ 256 ∧ matchesKeyNamePattern name.data = true := by
  unfold ValidateKeyName
  split
  · next hcond =>
    simp only [Bool.or_eq_true, beq_iff_eq, decide_eq_true_eq] at hcond
    constructor
    · intro h; exact absurd h (by simp)
    · rintro ⟨hle, hpat⟩
      rcases hcond with he | hgt
      · subst he
        simp [matchesKeyNamePattern,
          show ("" : String).data = [] from rfl] at hpat
      · omega
  · next hcond =>
    simp only [Bool.or_eq_true, beq_iff_eq, decide_eq_true_eq, not_or,
      not_lt] at hcond
    simp [hcond.2]

/-- C9 core: ValidateKeyName accepts exactly the strings matching the spec's
regex `[A-Za-z_][A-Za-z0-9_]{0,255}`. -/
theorem validateKeyName_iff_spec (name : String) :
    ValidateKeyName name = true ↔ specKeyNameMatches name = true := by
  rw [validateKeyName_eq_true_iff]
  cases hn : name.data with
  | nil =>
    have hspec : specKeyNameMatches name = false := by
      unfold specKeyNameMatches; rw [hn]
    simp [hspec, show matchesKeyNamePattern [] = false from rfl]
  | cons c cs =>
    have hbyte : name.utf8ByteSize = String.utf8ByteSize.go (c :: cs) := by
      cases name
      cases hn
      rfl
    have hspec : specKeyNameMatches name
        = (specStartChar c && cs.all specRestChar && decide (cs.length ≤ 255)) := by
      unfold specKeyNameMatches; rw [hn]
    have hpat : matchesKeyNamePattern (c :: cs)
        = (isKeyNameStart c && cs.all isKeyNameRest) := rfl
    rw [hbyte, hspec, hpat]
    simp only [Bool.and_eq_true, List.all_eq_true, decide_eq_true_eq]
    constructor
    · rintro ⟨hle, hstart, hall⟩
      have hsize : ∀ d ∈ c :: cs, d.utf8Size = 1 := by
        intro d hd
        rcases List.mem_cons.mp hd with rfl | hd
        · exact isKeyNameRest_utf8Size (isKeyNameStart_imp_rest hstart)
        · exact isKeyNameRest_utf8Size (hall d hd)
      have hgo : String.utf8ByteSize.go (c :: cs) = cs.length + 1 := by
        rw [utf8Go_eq_length _ hsize]; simp
      refine ⟨⟨?_, ?_⟩, ?_⟩
      · rw [specStartChar_eq_isKeyNameStart]; exact hstart
      · intro d hd; rw [specRestChar_eq_isKeyNameRest]; exact hall d hd
      · omega
    · rintro ⟨⟨hstart, hall⟩, hlen⟩
      rw [specStartChar_eq_isKeyNameStart] at hstart
      have hall' : ∀ d ∈ cs, isKeyNameRest d = true := by
        intro d hd
        have := hall d hd
        rwa [specRestChar_eq_isKeyNameRest] at this
      have hsize : ∀ d ∈ c :: cs, d.utf8Size = 1 := by
        intro d hd
        rcases List.mem_cons.mp hd with rfl | hd
        · exact isKeyNameRest_utf8Size (isKeyNameStart_imp_rest hstart)
        · exact isKeyNameRest_utf8Size (hall' d hd)
      have hgo : String.utf8ByteSize.go (c :: cs) = cs.length + 1 := by
        rw [utf8Go_eq_length _ hsize]; simp
      exact ⟨by omega, hstart, hall'⟩

/-- A concrete crypto engine used to instantiate theorems. -/
def sampleCrypto : KeyEncryption :=
  { masterKey := some 7, ivCounter := 0 }

/-- A concrete stored record (value encrypted under `sampleCrypto`). -/
def sampleKeyA : APIKey :=
  NewAPIKey 0 "OPENAI_KEY" (.token ⟨7, 0, "sk-live"⟩) "openai"

/-- A concrete storage state used to instantiate theorems. -/
def sampleStore : KeyStorage :=
  { keysCache := [("OPENAI_KEY", sampleKeyA)], loadFailed := false,
    crypto := sampleCrypto, keysFile := none, auditLog := [],
    diskFails := false, auditFails := false, auditErrors := 0 }

set_option maxRecDepth 8000

/-- C9: key-name validation accepts exactly the strings matching
`[A-Za-z_][A-Za-z0-9_]{0,255}`: "OPENAI_KEY" and "_X9" are accepted; "1KEY",
the empty string, "has space" and a 257-character name are rejected; and
AddKey on an invalid name returns a validation error with the store left
exactly unchanged (rejection happens before any state change). -/
theorem C9_key_name_validation :
    (∀ name : String,
      ValidateKeyName name = true ↔ specKeyNameMatches name = true) ∧
    ValidateKeyName "OPENAI_KEY" = true ∧
    ValidateKeyName "_X9" = true ∧
    ValidateKeyName "1KEY" = false ∧
    ValidateKeyName "" = false ∧
    ValidateKeyName "has space" = false ∧
    ValidateKeyName (String.mk (List.replicate 257 'A')) = false ∧
    ∀ (s : KeyStorage) (now : Nat) (name value provider : String)
      (opts : List KeyOption), ValidateKeyName name = false →
      ∃ e, s.AddKey now name value provider opts = (.error e, s) := by
  refine ⟨validateKeyName_iff_spec, by decide, by decide, by decide,
    by decide, by decide, by decide, ?_⟩
  intro s now name value provider opts h
  have heq : s.AddKey now name value provider opts
      = (.error ("invalid key name '" ++ name ++ "': must start with letter or underscore, contain only alphanumerics and underscores, max 256 chars"), s) := by
    unfold KeyStorage.AddKey
    rw [if_pos (by simp [h])]
  exact ⟨_, heq⟩

/-- Witness for C9's AddKey clause at a concrete store and invalid name. -/
theorem C9_key_name_validation_witness :
    ValidateKeyName "1KEY" = false ∧
    ∃ e, sampleStore.AddKey 0 "1KEY" "v" "openai" []
      = (.error e, sampleStore) :=
  ⟨by decide,
    C9_key_name_validation.2.2.2.2.2.2.2 sampleStore 0 "1KEY" "v" "openai" []
      (by decide)⟩

/-! ### C1 — rollback on persistence failure -/

/-- The same concrete store with a failing keys-file write. -/
def sampleStoreDiskFail : KeyStorage :=
  { sampleStore with diskFails := true }

/-- saveKeys never changes the in-memory record map. -/
theorem saveKeys_keysCache (s : KeyStorage) (now : Nat) :
    ((s.saveKeys now).2).keysCache = s.keysCache := by
  unfold KeyStorage.saveKeys
  by_cases hl : s.loadFailed = true
  · rw [if_pos hl]
  · rw [if_neg hl]
    dsimp only
    rcases henc : s.crypto.Encrypt ({ version := "2.0", updatedAt := now, keys := s.keysCache.map (fun x => x.2) } : KeysFileData) with ⟨r, crypto'⟩
    cases r with
    | error e => rfl
    | ok blob =>
      dsimp only
      by_cases hd : s.diskFails = true
      · rw [if_pos hd]
      · rw [if_neg hd]

/-- Deleting a key that was never bound undoes its insertion. -/
theorem eraseMap_insertMap_of_absent {β : Type} (m : List (String × β))
    (k : String) (v : β) (h : lookupMap m k = none) :
    eraseMap (insertMap m k v) k = m := by
  have hfind : m.find? (fun p => p.1 == k) = none := by
    unfold lookupMap at h
    exact Option.map_eq_none'.mp h
  have hall := List.find?_eq_none.mp hfind
  unfold insertMap eraseMap
  rw [hfind]
  simp only [Option.isSome_none, Bool.false_eq_true, if_false,
    List.filter_append]
  have h1 : m.filter (fun p => !(p.1 == k)) = m := by
    rw [List.filter_eq_self]
    intro p hp
    simpa using hall p hp
  have h2 : List.filter (fun p => !(p.1 == k)) [(k, v)] = [] := by
    simp [List.filter]
  rw [h1, h2, List.append_nil]

/-- C1 counterexample: on a store whose keys-file write fails, DeleteKey
returns the persistence error but the record is already gone from the
in-memory map — the map is not left exactly as it was before the
operation. -/
theorem C1_counterexample :
    (sampleStoreDiskFail.DeleteKey 1 "OPENAI_KEY").1
      = .error "failed to write temp file" ∧
    (sampleStoreDiskFail.DeleteKey 1 "OPENAI_KEY").2.keysCache
      ≠ sampleStoreDiskFail.keysCache := by
  decide

/-- C1 amended: when persistence fails the error is surfaced in all three
mutations, but only AddKey rolls the map back (exactly, provided the name
was not already bound); UpdateKey and DeleteKey leave the in-memory
mutation applied. -/
theorem C1_amended_rollback_only_in_addKey :
    (∀ (s : KeyStorage) (now : Nat) (name value provider : String)
       (opts : List KeyOption),
       lookupMap s.keysCache name = none →
       (s.AddKey now name value provider opts).1.isOk = false →
       (s.AddKey now name value provider opts).2.keysCache = s.keysCache) ∧
    (∀ (s : KeyStorage) (now : Nat) (name : String) (k : APIKey),
       lookupMap s.keysCache name = some k →
       (s.DeleteKey now name).1.isOk = false →
       (s.DeleteKey now name).2.keysCache = eraseMap s.keysCache name) ∧
    (∀ (s : KeyStorage) (now : Nat) (name : String) (k : APIKey)
       (updates : KeyUpdates),
       lookupMap s.keysCache name = some k →
       (s.UpdateKey now name updates).1.isOk = false →
       (s.UpdateKey now name updates).2.keysCache
         = insertMap s.keysCache name (applyKeyUpdates k updates now)) := by
  refine ⟨?_, ?_, ?_⟩
  · intro s now name value provider opts habs hfail
    by_cases hv : ValidateKeyName name = true
    · unfold KeyStorage.AddKey at hfail ⊢
      rw [if_neg (by simp [hv])] at hfail ⊢
      rcases henc : s.crypto.Encrypt value with ⟨r, crypto'⟩
      rw [henc] at hfail
      cases r with
      | error e => rfl
      | ok encrypted =>
        dsimp only at hfail ⊢
        rcases hsave : ({ s with crypto := crypto', keysCache := insertMap s.keysCache name (List.foldl (fun k opt => opt k) (NewAPIKey now name encrypted provider) opts) } : KeyStorage).saveKeys now with ⟨rs, s2⟩
        rw [hsave] at hfail
        cases rs with
        | error e =>
          dsimp only
          have h2 := saveKeys_keysCache ({ s with crypto := crypto', keysCache := insertMap s.keysCache name (List.foldl (fun k opt => opt k) (NewAPIKey now name encrypted provider) opts) } : KeyStorage) now
          rw [hsave] at h2
          dsimp only at h2
          rw [h2]
          exact eraseMap_insertMap_of_absent _ _ _ habs
        | ok u =>
          dsimp only at hfail
          simp [Except.isOk, Except.toBool] at hfail
    · unfold KeyStorage.AddKey
      rw [if_pos (by simp [hv])]
  · intro s now name k hbound hfail
    unfold KeyStorage.DeleteKey at hfail ⊢
    rw [hbound] at hfail ⊢
    dsimp only at hfail ⊢
    rcases hsave : ({ s with keysCache := eraseMap s.keysCache name } : KeyStorage).saveKeys now with ⟨rs, s2⟩
    rw [hsave] at hfail
    cases rs with
    | error e =>
      have h2 := saveKeys_keysCache ({ s with keysCache := eraseMap s.keysCache name } : KeyStorage) now
      rw [hsave] at h2
      exact h2
    | ok u =>
      dsimp only at hfail
      simp [Except.isOk, Except.toBool] at hfail
  · intro s now name k updates hbound hfail
    unfold KeyStorage.UpdateKey at hfail ⊢
    rw [hbound] at hfail ⊢
    dsimp only at hfail ⊢
    rcases hsave : ({ s with keysCache := insertMap s.keysCache name (applyKeyUpdates k updates now) } : KeyStorage).saveKeys now with ⟨rs, s2⟩
    rw [hsave] at hfail
    cases rs with
    | error e =>
      have h2 := saveKeys_keysCache ({ s with keysCache := insertMap s.keysCache name (applyKeyUpdates k updates now) } : KeyStorage) now
      rw [hsave] at h2
      exact h2
    | ok u =>
      dsimp only at hfail
      simp [Except.isOk, Except.toBool] at hfail

/-- Witness for C1's amended statement on the concrete failing-disk store:
a fresh AddKey is rolled back, a DeleteKey is not. -/
theorem C1_amended_rollback_only_in_addKey_witness :
    (lookupMap sampleStoreDiskFail.keysCache "NEW_KEY" = none ∧
     (sampleStoreDiskFail.AddKey 1 "NEW_KEY" "v" "openai" []).1.isOk = false ∧
     (sampleStoreDiskFail.AddKey 1 "NEW_KEY" "v" "openai" []).2.keysCache
       = sampleStoreDiskFail.keysCache) ∧
    (lookupMap sampleStoreDiskFail.keysCache "OPENAI_KEY" = some sampleKeyA ∧
     (sampleStoreDiskFail.DeleteKey 1 "OPENAI_KEY").1.isOk = false ∧
     (sampleStoreDiskFail.DeleteKey 1 "OPENAI_KEY").2.keysCache
       = eraseMap sampleStoreDiskFail.keysCache "OPENAI_KEY") :=
  ⟨⟨by decide, by decide,
    C1_amended_rollback_only_in_addKey.1 sampleStoreDiskFail 1 "NEW_KEY" "v"
      "openai" [] (by decide) (by decide)⟩,
   ⟨by decide, by decide,
    C1_amended_rollback_only_in_addKey.2.1 sampleStoreDiskFail 1 "OPENAI_KEY"
      sampleKeyA (by decide) (by decide)⟩⟩

/-! ### C3 — load failure degrades to an empty, save-disabled store -/

/-- C3: when decrypting the keys file fails during load, the store starts
with an empty record map and the load-failed flag set, and as long as the
flag is set every save attempt returns an error with the whole store — in
particular the on-disk keys file — left untouched, so the unreadable file
is never overwritten. -/
theorem C3_load_failure_disables_saves
    (crypto : KeyEncryption) (c : Ciphertext KeysFileData)
    (diskFails auditFails : Bool) (e0 : String)
    (hdec : crypto.Decrypt c = .error e0) :
    (NewKeyStorage crypto (some (.blob c)) diskFails auditFails).keysCache
      = [] ∧
    (NewKeyStorage crypto (some (.blob c)) diskFails auditFails).loadFailed
      = true ∧
    (∀ (s : KeyStorage) (now : Nat), s.loadFailed = true →
      ∃ e, s.saveKeys now = (.error e, s)) := by
  refine ⟨?_, ?_, ?_⟩
  · unfold NewKeyStorage loadKeys
    dsimp only
    rw [hdec]
  · unfold NewKeyStorage loadKeys
    dsimp only
    rw [hdec]
  · intro s now h
    have heq : s.saveKeys now
        = (.error "refusing to save: keys file failed to load, saving may cause data loss", s) := by
      unfold KeyStorage.saveKeys
      rw [if_pos h]
    exact ⟨_, heq⟩

/-- Witness for C3 at a concrete corrupted keys file. -/
theorem C3_load_failure_disables_saves_witness :
    sampleCrypto.Decrypt (.garbage : Ciphertext KeysFileData)
      = .error "failed to decode ciphertext" ∧
    (NewKeyStorage sampleCrypto (some (.blob .garbage)) false false).keysCache
      = [] ∧
    (NewKeyStorage sampleCrypto (some (.blob .garbage)) false false).loadFailed
      = true ∧
    ∃ e, (NewKeyStorage sampleCrypto (some (.blob .garbage)) false false).saveKeys 5
      = (.error e,
         NewKeyStorage sampleCrypto (some (.blob .garbage)) false false) :=
  ⟨rfl,
   (C3_load_failure_disables_saves sampleCrypto .garbage false false _ rfl).1,
   (C3_load_failure_disables_saves sampleCrypto .garbage false false _ rfl).2.1,
   (C3_load_failure_disables_saves sampleCrypto .garbage false false _ rfl).2.2
     _ 5
     (C3_load_failure_disables_saves sampleCrypto .garbage false false _ rfl).2.1⟩

/-! ### C4 — budget limits and daily rollover -/

/-- Overwriting a present binding leaves it findable as the new pair. -/
theorem find?_overwriteMap {β : Type} (m : List (String × β)) (k : String)
    (v : β) :
    List.find? (fun q => q.1 == k)
        (m.map (fun q => if q.1 == k then (k, v) else q))
      = if (m.find? (fun q => q.1 == k)).isSome then some (k, v) else none := by
  induction m with
  | nil => simp
  | cons p rest ih =>
    rw [List.map_cons]
    by_cases hp : (p.1 == k) = true
    · rw [if_pos hp,
        @List.find?_cons_of_pos _ (fun q => q.1 == k) (k, v) _ (by simp),
        @List.find?_cons_of_pos _ (fun q => q.1 == k) p rest hp]
      simp
    · rw [if_neg hp,
        @List.find?_cons_of_neg _ (fun q => q.1 == k) p _ hp,
        @List.find?_cons_of_neg _ (fun q => q.1 == k) p rest hp,
        ih]

/-- The entry just written by a Go map assignment. -/
theorem lookupMap_insertMap_self {β : Type} (m : List (String × β))
    (k : String) (v : β) : lookupMap (insertMap m k v) k = some v := by
  unfold insertMap lookupMap
  by_cases h : (m.find? (fun p => p.1 == k)).isSome = true
  · rw [if_pos h, find?_overwriteMap, if_pos h]
    rfl
  · rw [if_neg h, List.find?_append, Option.not_isSome_iff_eq_none.mp h]
    simp

/-- Record does not touch the configured limits. -/
theorem record_config (bt : BudgetTracker) (today month p : String) :
    (bt.Record today month p).config = bt.config := rfl

/-- After `n + 1` Records on one day and month, starting from a provider
with no stored counter, the counter holds exactly `n + 1` in both periods
stamped with that day and month, and the configuration is untouched. -/
theorem record_iterate_fresh (bt : BudgetTracker) (p today month : String)
    (hfresh : lookupMap bt.counters p = none)
    (htoday : today ≠ "") (hmonth : month ≠ "") :
    ∀ n : Nat,
      lookupMap ((fun b => BudgetTracker.Record b today month p)^[n + 1] bt).counters p
        = some ⟨(n : Int) + 1, (n : Int) + 1, today, month⟩ ∧
      ((fun b => BudgetTracker.Record b today month p)^[n + 1] bt).config
        = bt.config := by
  intro n
  induction n with
  | zero =>
    rw [Function.iterate_one]
    constructor
    · unfold BudgetTracker.Record BudgetTracker.getOrResetCounter
      rw [hfresh]
      simp only [ne_eq, ite_not]
      rw [if_neg (show ¬ ("" = today) from Ne.symm htoday)]
      dsimp only
      rw [if_neg (show ¬ ("" = month) from Ne.symm hmonth)]
      dsimp only
      rw [lookupMap_insertMap_self]
      norm_num
    · rfl
  | succ n ih =>
    rw [Function.iterate_succ_apply']
    set btn := (fun b => BudgetTracker.Record b today month p)^[n + 1] bt
      with hbtn
    obtain ⟨ih1, ih2⟩ := ih
    constructor
    · unfold BudgetTracker.Record BudgetTracker.getOrResetCounter
      rw [ih1]
      simp [lookupMap_insertMap_self]
    · unfold BudgetTracker.Record
      dsimp only
      exact ih2

/-- C4: with a configured daily limit `d > 0` and a fresh counter, after
`d + 1` Records within one calendar day the next Check fails with a
budget-exceeded error, and a Record on the following day (same month)
leaves the daily counter at exactly 1 while the monthly counter keeps
accumulating (to `d + 2`). -/
theorem C4_budget_daily_rollover
    (bt : BudgetTracker) (p today tomorrow month : String) (d : Nat)
    (ml : Int)
    (hcfg : lookupMap bt.config p = some ⟨(d : Int), ml⟩)
    (hd : 0 < d)
    (hfresh : lookupMap bt.counters p = none)
    (htoday : today ≠ "") (hmonth : month ≠ "") (hroll : tomorrow ≠ today) :
    (∃ e, ((fun b => BudgetTracker.Record b today month p)^[d + 1] bt).Check
        today month p = .error e) ∧
    lookupMap (((fun b => BudgetTracker.Record b today month p)^[d + 1] bt).Record
        tomorrow month p).counters p
      = some ⟨1, (d : Int) + 2, tomorrow, month⟩ := by
  obtain ⟨hcount, hconf⟩ :=
    record_iterate_fresh bt p today month hfresh htoday hmonth d
  set bt1 := (fun b => BudgetTracker.Record b today month p)^[d + 1] bt
    with hbt1
  constructor
  · have heq : bt1.Check today month p
        = .error ("provider '" ++ p ++ "' daily limit exceeded") := by
      unfold BudgetTracker.Check BudgetTracker.getOrResetCounter
      rw [hconf, hcfg, hcount]
      dsimp only
      rw [if_pos ?hcond]
      case hcond =>
        simp only [Bool.and_eq_true, decide_eq_true_eq, beq_self_eq_true,
          and_true, true_and]
        constructor
        · exact_mod_cast hd
        · omega
    exact ⟨_, heq⟩
  · unfold BudgetTracker.Record BudgetTracker.getOrResetCounter
    rw [hcount]
    simp only [ne_eq, ite_not]
    rw [if_neg (show ¬ (today = tomorrow) from fun h => hroll h.symm)]
    simp [lookupMap_insertMap_self]
    ring

/-- A concrete budget tracker: provider "openai" capped at 2 requests per
day, unlimited per month, no counters yet. -/
def sampleBudget0 : BudgetTracker :=
  { config := [("openai", { dailyLimit := 2, monthlyLimit := 0 })],
    counters := [] }

/-- Witness for C4 on the concrete tracker with daily limit 2. -/
theorem C4_budget_daily_rollover_witness :
    (∃ e, ((fun b => BudgetTracker.Record b "2026-10-11" "2026-10" "openai")^[2 + 1]
        sampleBudget0).Check "2026-10-11" "2026-10" "openai" = .error e) ∧
    lookupMap (((fun b => BudgetTracker.Record b "2026-10-11" "2026-10" "openai")^[2 + 1]
        sampleBudget0).Record "2026-10-12" "2026-10" "openai").counters "openai"
      = some ⟨1, (2 : Int) + 2, "2026-10-12", "2026-10"⟩ :=
  C4_budget_daily_rollover sampleBudget0 "openai" "2026-10-11" "2026-10-12"
    "2026-10" 2 0 (by decide) (by decide) (by decide) (by decide) (by decide)
    (by decide)

/-! ### C7 — audit-log verification counts -/

/-- A non-blank audit line (the claim's N counts these). -/
def auditNonEmpty : AuditLine → Bool
  | .empty => false
  | _ => true

/-- The claim's M: a well-formed entry without a signature (absent or
empty). -/
def auditUnsigned : AuditLine → Bool
  | .entry log =>
    match log.signature with
    | none => true
    | some sig => sig == ""
  | _ => false

/-- The claim's K: an unparseable line, or an entry whose signature does
not match the recomputed MAC. -/
def auditTampered (crypto : KeyEncryption) : AuditLine → Bool
  | .malformed => true
  | .entry log =>
    match log.signature with
    | none => false
    | some sig =>
      if sig == "" then false
      else
        !(crypto.VerifySignature
          (logCanonicalJSON log.keyName log.project log.action log.timestamp)
          sig)
  | .empty => false

/-- A line counted as verified: non-blank, signed, MAC matches. -/
def auditVerifiedLine (crypto : KeyEncryption) (l : AuditLine) : Bool :=
  auditNonEmpty l && !(auditUnsigned l) && !(auditTampered crypto l)

/-- Closed form of the VerifyAuditLogs fold from any accumulator. -/
theorem verifyAuditLogs_foldl (crypto : KeyEncryption) :
    ∀ (lines : List AuditLine) (t v u ta : Nat),
      lines.foldl (verifyAuditStep crypto) (t, v, u, ta)
        = (t + lines.countP auditNonEmpty,
           v + lines.countP (auditVerifiedLine crypto),
           u + lines.countP auditUnsigned,
           ta + lines.countP (auditTampered crypto)) := by
  intro lines
  induction lines with
  | nil => intro t v u ta; simp
  | cons l rest ih =>
    intro t v u ta
    rw [List.foldl_cons]
    cases l with
    | empty =>
      rw [show verifyAuditStep crypto (t, v, u, ta) .empty = (t, v, u, ta)
        from rfl, ih]
      simp only [List.countP_cons, auditNonEmpty, auditUnsigned,
        auditTampered, auditVerifiedLine]
      simp
    | malformed =>
      rw [show verifyAuditStep crypto (t, v, u, ta) .malformed
        = (t + 1, v, u, ta + 1) from rfl, ih]
      simp only [List.countP_cons, auditNonEmpty, auditUnsigned,
        auditTampered, auditVerifiedLine]
      simp
      omega
    | entry log =>
      cases hsig : log.signature with
      | none =>
        rw [show verifyAuditStep crypto (t, v, u, ta) (.entry log)
          = (t + 1, v, u + 1, ta) from by
            unfold verifyAuditStep; dsimp only; rw [hsig], ih]
        simp [List.countP_cons, auditNonEmpty, auditUnsigned,
          auditTampered, auditVerifiedLine, hsig]
        omega
      | some sig =>
        by_cases hempty : (sig == "") = true
        · rw [show verifyAuditStep crypto (t, v, u, ta) (.entry log)
            = (t + 1, v, u + 1, ta) from by
              unfold verifyAuditStep
              dsimp only
              rw [hsig]
              dsimp only
              rw [if_pos hempty], ih]
          simp [List.countP_cons, auditNonEmpty, auditUnsigned,
            auditTampered, auditVerifiedLine, hsig, hempty]
          omega
        · by_cases hver : crypto.VerifySignature
              (logCanonicalJSON log.keyName log.project log.action
                log.timestamp) sig = true
          · rw [show verifyAuditStep crypto (t, v, u, ta) (.entry log)
              = (t + 1, v + 1, u, ta) from by
                unfold verifyAuditStep
                dsimp only
                rw [hsig]
                dsimp only
                rw [if_neg hempty, if_pos hver], ih]
            simp [List.countP_cons, auditNonEmpty, auditUnsigned,
              auditTampered, auditVerifiedLine, hsig, hempty, hver]
            omega
          · rw [show verifyAuditStep crypto (t, v, u, ta) (.entry log)
              = (t + 1, v, u, ta + 1) from by
                unfold verifyAuditStep
                dsimp only
                rw [hsig]
                dsimp only
                rw [if_neg hempty, if_neg hver], ih]
            simp [List.countP_cons, auditNonEmpty, auditUnsigned,
              auditTampered, auditVerifiedLine, hsig, hempty, hver]
            omega

/-- Every non-blank line falls in exactly one of the three classes. -/
theorem audit_partition (crypto : KeyEncryption) (lines : List AuditLine) :
    lines.countP (auditVerifiedLine crypto) + lines.countP auditUnsigned
        + lines.countP (auditTampered crypto)
      = lines.countP auditNonEmpty := by
  induction lines with
  | nil => simp
  | cons l rest ih =>
    simp only [List.countP_cons]
    cases l with
    | empty =>
      simp [auditNonEmpty, auditUnsigned, auditTampered, auditVerifiedLine]
      omega
    | malformed =>
      simp [auditNonEmpty, auditUnsigned, auditTampered, auditVerifiedLine]
      omega
    | entry log =>
      cases hsig : log.signature with
      | none =>
        simp [auditNonEmpty, auditUnsigned, auditTampered,
          auditVerifiedLine, hsig]
        omega
      | some sig =>
        by_cases hempty : (sig == "") = true
        · simp [auditNonEmpty, auditUnsigned, auditTampered,
            auditVerifiedLine, hsig, hempty]
          omega
        · by_cases hver : crypto.VerifySignature
              (logCanonicalJSON log.keyName log.project log.action
                log.timestamp) sig = true
          · simp [auditNonEmpty, auditUnsigned, auditTampered,
              auditVerifiedLine, hsig, hempty, hver]
            omega
          · simp [auditNonEmpty, auditUnsigned, auditTampered,
              auditVerifiedLine, hsig, hempty, hver]
            omega

/-- C7: on an audit file with N non-blank lines of which M are well-formed
entries without a signature and K are unparseable lines or entries whose
signature does not match the recomputed MAC, VerifyAuditLogs returns
total = N, verified = N - M - K, unsigned = M, tampered = K; a malformed
line is counted as tampered and the scan covers every remaining line. -/
theorem C7_verify_audit_logs_counts (s : KeyStorage) :
    s.VerifyAuditLogs
      = (s.auditLog.countP auditNonEmpty,
         s.auditLog.countP auditNonEmpty
           - s.auditLog.countP auditUnsigned
           - s.auditLog.countP (auditTampered s.crypto),
         s.auditLog.countP auditUnsigned,
         s.auditLog.countP (auditTampered s.crypto)) := by
  unfold KeyStorage.VerifyAuditLogs
  rw [verifyAuditLogs_foldl]
  have hpart := audit_partition s.crypto s.auditLog
  simp only [Nat.zero_add, Prod.mk.injEq]
  refine ⟨trivial, ?_, trivial⟩
  omega

/-! ### C5 — provider resolution, no silent default -/

/-- C5: a body whose `model` is "gpt-4o" resolves to "openai" and
"claude-3-opus" to "anthropic"; an `X-AKM-Provider: gemini` header resolves
to "gemini" regardless of the body; and a request with no recognized model
prefix and no header is rejected with an invalid-request error, nothing is
forwarded and the store is untouched — there is never a silent default
provider. -/
theorem C5_provider_resolution :
    resolveProvider "" (some "gpt-4o") = .ok "openai" ∧
    resolveProvider "" (some "claude-3-opus") = .ok "anthropic" ∧
    (∀ bodyModel, resolveProvider "gemini" bodyModel = .ok "gemini") ∧
    (∀ (s : KeyStorage) (bt : BudgetTracker) (today month : String)
       (now : Nat) (req : ProxyRequest),
       hGetD req.headers "X-AKM-Provider" = "" →
       (∀ m, req.bodyModel = some m →
         ∀ q ∈ modelPrefixMap, ¬ strHasPfx q.1 (strToLower m)) →
       proxyHandler s bt today month now req
         = (.reject 400 "invalid_request_error", s)) := by
  refine ⟨by decide, by decide, ?_, ?_⟩
  · intro bodyModel
    rfl
  · intro s bt today month now req hhdr hnopfx
    obtain ⟨e, he⟩ : ∃ e,
        resolveProvider (hGetD req.headers "X-AKM-Provider") req.bodyModel
          = .error e := by
      rw [hhdr]
      unfold resolveProvider
      rw [if_neg (by simp)]
      dsimp only
      cases hbm : req.bodyModel with
      | none => exact ⟨_, rfl⟩
      | some m =>
        dsimp only
        by_cases hm : m ≠ ""
        · rw [if_pos hm]
          have hfind : modelPrefixMap.find?
              (fun q => strHasPfx q.1 (strToLower m)) = none :=
            List.find?_eq_none.mpr (fun q hq => by
              simpa using hnopfx m hbm q hq)
          rw [hfind]
          exact ⟨_, rfl⟩
        · rw [if_neg hm]
          exact ⟨_, rfl⟩
    unfold proxyHandler
    dsimp only
    rw [he]
  
/-- Witness for C5's rejection clause at a concrete unrecognizable
request. -/
theorem C5_provider_resolution_witness :
    hGetD ([] : Headers) "X-AKM-Provider" = "" ∧
    proxyHandler sampleStore sampleBudget0 "2026-10-11" "2026-10" 3
        { headers := [], bodyModel := some "llama-3" }
      = (.reject 400 "invalid_request_error", sampleStore) :=
  ⟨rfl,
   C5_provider_resolution.2.2.2 sampleStore sampleBudget0 "2026-10-11"
     "2026-10" 3 { headers := [], bodyModel := some "llama-3" } rfl
     (by intro m hm; cases hm; decide)⟩

/-! ### C6 — anthropic header rewriting -/

/-- find? is unchanged by a filter that keeps everything the search
predicate accepts. -/
theorem find?_filter_of_imp {α : Type} (l : List α) (p q : α → Bool)
    (h : ∀ a, p a = true → q a = true) :
    (l.filter q).find? p = l.find? p := by
  induction l with
  | nil => rfl
  | cons a rest ih =>
    by_cases hq : q a = true
    · rw [List.filter_cons_of_pos hq]
      by_cases hp : p a = true
      · rw [List.find?_cons_of_pos _ hp, List.find?_cons_of_pos _ hp]
      · rw [List.find?_cons_of_neg _ hp, List.find?_cons_of_neg _ hp, ih]
    · rw [List.filter_cons_of_neg (by simpa using hq)]
      have hp : ¬ p a = true := fun hpa => hq (h a hpa)
      rw [List.find?_cons_of_neg _ hp, ih]

/-- Case-insensitive header-name equality is symmetric. -/
theorem headerNameEq_symm (a b : String) :
    headerNameEq a b = headerNameEq b a := by
  unfold headerNameEq
  rw [Bool.eq_iff_iff]
  simp only [beq_iff_eq]
  exact eq_comm

/-- Names equivalent to `q` are not equivalent to `n` when `n` and `q`
differ. -/
theorem headerNameEq_right_ne {x q n : String}
    (hxq : headerNameEq x q = true) (hnq : ¬ headerNameEq n q = true) :
    (!(headerNameEq x n)) = true := by
  have hxq' : strToLower x = strToLower q := by
    simpa [headerNameEq] using hxq
  by_contra h
  simp only [Bool.not_eq_true, Bool.not_eq_false] at h
  have hxn : strToLower x = strToLower n := by
    simpa [headerNameEq] using h
  exact hnq (by simp [headerNameEq, hxn.symm.trans hxq'])

/-- Get after Set. -/
theorem hGet_hSet (hs : Headers) (n v q : String) :
    hGet (hSet hs n v) q
      = if headerNameEq n q then some v else hGet hs q := by
  unfold hGet hSet
  by_cases hnq : headerNameEq n q = true
  · rw [if_pos hnq,
      @List.find?_cons_of_pos _ (fun p => headerNameEq p.1 q) (n, v) _ hnq]
    rfl
  · rw [if_neg hnq,
      @List.find?_cons_of_neg _ (fun p => headerNameEq p.1 q) (n, v) _ hnq]
    congr 1
    exact find?_filter_of_imp _ _ _
      (fun a ha => headerNameEq_right_ne ha hnq)

/-- Get after Del. -/
theorem hGet_hDel (hs : Headers) (d q : String) :
    hGet (hDel hs d) q = if headerNameEq d q then none else hGet hs q := by
  unfold hGet hDel
  by_cases hdq : headerNameEq d q = true
  · rw [if_pos hdq, Option.map_eq_none']
    refine List.find?_eq_none.mpr ?_
    intro x hx hxq
    have hxd : (!(headerNameEq x.1 d)) = true := (List.mem_filter.mp hx).2
    have h1 : strToLower x.1 = strToLower q := by
      simpa [headerNameEq] using hxq
    have h2 : strToLower d = strToLower q := by
      simpa [headerNameEq] using hdq
    have h3 : headerNameEq x.1 d = true := by
      simp [headerNameEq, h1, h2]
    simp [h3] at hxd
  · rw [if_neg hdq]
    congr 1
    exact find?_filter_of_imp _ _ _
      (fun a ha => headerNameEq_right_ne ha hdq)

/-- The route table entry for anthropic. -/
def anthropicRoute : ProviderRoute :=
  { baseURL := "https://api.anthropic.com", authHeader := "x-api-key",
    authPfx := "",
    extraHeaders := [("anthropic-version", "2023-06-01")] }

/-- C6: every request the proxy forwards to provider "anthropic" goes to
the anthropic base URL carrying `x-api-key` set to the decrypted key value
and `anthropic-version: 2023-06-01`; the inbound Authorization header is
removed and the X-AKM-Provider / X-AKM-Key routing headers are stripped. -/
theorem C6_anthropic_forward_headers
    (s s' : KeyStorage) (bt : BudgetTracker) (today month : String)
    (now : Nat) (req : ProxyRequest) (value : String)
    (hres : resolveProvider (hGetD req.headers "X-AKM-Provider")
        req.bodyModel = .ok "anthropic")
    (hbud : bt.Check today month "anthropic" = .ok ())
    (hsel : selectKey s now "anthropic" (hGetD req.headers "X-AKM-Key")
        = (.ok value, s')) :
    ∃ hs, proxyHandler s bt today month now req
        = (.forward "https://api.anthropic.com" hs, s') ∧
      hGet hs "x-api-key" = some value ∧
      hGet hs "anthropic-version" = some "2023-06-01" ∧
      hGet hs "Authorization" = none ∧
      hGet hs "X-AKM-Provider" = none ∧
      hGet hs "X-AKM-Key" = none := by
  refine ⟨proxyDirector anthropicRoute value req.headers,
    ?_, ?_, ?_, ?_, ?_, ?_⟩
  · unfold proxyHandler
    dsimp only
    rw [hres]
    dsimp only
    rw [show providerRoutes "anthropic" = some anthropicRoute from rfl]
    dsimp only
    rw [hbud]
    dsimp only
    rw [hsel]
    rfl
  all_goals
    unfold proxyDirector anthropicRoute
    dsimp only
    rw [List.foldl_cons, List.foldl_nil]
    simp +decide only [hGet_hDel, hGet_hSet, if_true, if_false]
    try simp

/-- A request as a caller would send it through the proxy to anthropic. -/
def reqC6 : ProxyRequest :=
  { headers := [("Authorization", "Bearer caller-token"),
                ("X-AKM-Provider", "anthropic"),
                ("X-AKM-Key", "OPENAI_KEY")],
    bodyModel := none }

/-- Witness for C6 at a concrete store, budget and request. -/
theorem C6_anthropic_forward_headers_witness :
    resolveProvider (hGetD reqC6.headers "X-AKM-Provider") reqC6.bodyModel
      = .ok "anthropic" ∧
    sampleBudget0.Check "2026-10-11" "2026-10" "anthropic" = .ok () ∧
    selectKey sampleStore 3 "anthropic" (hGetD reqC6.headers "X-AKM-Key")
      = (.ok "sk-live",
         (selectKey sampleStore 3 "anthropic"
           (hGetD reqC6.headers "X-AKM-Key")).2) ∧
    ∃ hs, proxyHandler sampleStore sampleBudget0 "2026-10-11" "2026-10" 3 reqC6
        = (.forward "https://api.anthropic.com" hs,
           (selectKey sampleStore 3 "anthropic"
             (hGetD reqC6.headers "X-AKM-Key")).2) ∧
      hGet hs "x-api-key" = some "sk-live" ∧
      hGet hs "anthropic-version" = some "2023-06-01" ∧
      hGet hs "Authorization" = none ∧
      hGet hs "X-AKM-Provider" = none ∧
      hGet hs "X-AKM-Key" = none :=
  ⟨by decide, by decide, by decide,
   C6_anthropic_forward_headers sampleStore _ sampleBudget0 "2026-10-11"
     "2026-10" 3 reqC6 "sk-live" (by decide) (by decide) (by decide)⟩

/-! ### C10 — explicit key header bypasses the provider binding -/

/-- C10: when the request names a stored key via X-AKM-Key and that key
decrypts, the proxy injects its value even though the key's recorded
provider differs from the resolved provider — selectKey performs no check
that the named key belongs to the provider, and the request is forwarded
with the mismatched key's value in the route's auth header. -/
theorem C10_explicit_key_ignores_provider
    (s : KeyStorage) (bt : BudgetTracker) (today month : String) (now : Nat)
    (req : ProxyRequest) (provider name : String) (k : APIKey)
    (route : ProviderRoute) (v : String)
    (hname : hGetD req.headers "X-AKM-Key" = name) (hne : name ≠ "")
    (hbound : lookupMap s.keysCache name = some k)
    (hmismatch : k.provider ≠ provider)
    (hdec : s.crypto.Decrypt k.valueEncrypted = .ok v)
    (hres : resolveProvider (hGetD req.headers "X-AKM-Provider")
        req.bodyModel = .ok provider)
    (hroute : providerRoutes provider = some route)
    (hbud : bt.Check today month provider = .ok ()) :
    selectKey s now provider name
      = (.ok v, s.logUsage now name "read" "proxy") ∧
    proxyHandler s bt today month now req
      = (.forward route.baseURL (proxyDirector route v req.headers),
         s.logUsage now name "read" "proxy") ∧
    hGet (proxyDirector route v req.headers) route.authHeader
      = some (route.authPfx ++ v) := by
  have hsel : selectKey s now provider name
      = (.ok v, s.logUsage now name "read" "proxy") := by
    unfold selectKey
    rw [if_pos hne]
    unfold KeyStorage.GetKeyValue
    rw [hbound]
    dsimp only
    rw [hdec]
  refine ⟨hsel, ?_, ?_⟩
  · unfold proxyHandler
    dsimp only
    rw [hres]
    dsimp only
    rw [hroute]
    dsimp only
    rw [hbud]
    dsimp only
    rw [hname, hsel]
  · unfold providerRoutes at hroute
    split at hroute <;>
      first
      | (simp only [Option.some.injEq] at hroute
         subst hroute
         unfold proxyDirector
         dsimp only
         first
         | rw [List.foldl_cons, List.foldl_nil]
         | rw [List.foldl_nil]
         simp +decide only [hGet_hDel, hGet_hSet, if_true, if_false])
      | exact absurd hroute (by simp)

/-- Witness for C10: the stored key belongs to "openai" but the request
resolves to "anthropic" and names the key explicitly; its value is still
injected. -/
theorem C10_explicit_key_ignores_provider_witness :
    sampleKeyA.provider = "openai" ∧
    selectKey sampleStore 3 "anthropic" "OPENAI_KEY"
      = (.ok "sk-live",
         sampleStore.logUsage 3 "OPENAI_KEY" "read" "proxy") ∧
    proxyHandler sampleStore sampleBudget0 "2026-10-11" "2026-10" 3 reqC6
      = (.forward anthropicRoute.baseURL
           (proxyDirector anthropicRoute "sk-live" reqC6.headers),
         sampleStore.logUsage 3 "OPENAI_KEY" "read" "proxy") ∧
    hGet (proxyDirector anthropicRoute "sk-live" reqC6.headers)
        anthropicRoute.authHeader
      = some (anthropicRoute.authPfx ++ "sk-live") :=
  ⟨rfl,
   (C10_explicit_key_ignores_provider sampleStore sampleBudget0 "2026-10-11"
     "2026-10" 3 reqC6 "anthropic" "OPENAI_KEY" sampleKeyA anthropicRoute
     "sk-live" (by decide) (by decide) (by decide) (by decide) (by decide)
     (by decide) rfl (by decide)).1,
   (C10_explicit_key_ignores_provider sampleStore sampleBudget0 "2026-10-11"
     "2026-10" 3 reqC6 "anthropic" "OPENAI_KEY" sampleKeyA anthropicRoute
     "sk-live" (by decide) (by decide) (by decide) (by decide) (by decide)
     (by decide) rfl (by decide)).2.1,
   (C10_explicit_key_ignores_provider sampleStore sampleBudget0 "2026-10-11"
     "2026-10" 3 reqC6 "anthropic" "OPENAI_KEY" sampleKeyA anthropicRoute
     "sk-live" (by decide) (by decide) (by decide) (by decide) (by decide)
     (by decide) rfl (by decide)).2.2⟩

/-! ### C8 — the verifier's batch -/

/-- The result VerifyAll's goroutine computes for one selected key, as a
function of the store's crypto engine and record map (both constant across
the batch — the goroutines only append audit entries). -/
def expectedVerifyResult (crypto : KeyEncryption)
    (cache : List (String × APIKey)) (doReq : HttpRequest → HttpResult)
    (k : APIKey) : VerifyResult :=
  match lookupMap cache k.name with
  | none =>
    { name := k.name, provider := k.provider, status := "error",
      message := "解密失败: " ++ ("key '" ++ k.name ++ "' not found") }
  | some kk =>
    match crypto.Decrypt kk.valueEncrypted with
    | .error e =>
      { name := k.name, provider := k.provider, status := "error",
        message := "解密失败: "
          ++ ("failed to decrypt key '" ++ k.name ++ "': " ++ e) }
    | .ok v => VerifyKey doReq k.name k.provider v

/-- logUsage only appends to the audit file. -/
theorem logUsage_crypto (s : KeyStorage) (now : Nat)
    (kn a p : String) : (s.logUsage now kn a p).crypto = s.crypto := by
  unfold KeyStorage.logUsage
  dsimp only
  split <;> rfl

/-- logUsage leaves the record map alone. -/
theorem logUsage_keysCache (s : KeyStorage) (now : Nat)
    (kn a p : String) : (s.logUsage now kn a p).keysCache = s.keysCache := by
  unfold KeyStorage.logUsage
  dsimp only
  split <;> rfl

/-- The goroutine body returns the expected classification and leaves the
crypto engine and record map untouched. -/
theorem verifyOne_spec (doReq : HttpRequest → HttpResult) (s : KeyStorage)
    (now : Nat) (k : APIKey) :
    (verifyOne doReq s now k.name k.provider).1
      = expectedVerifyResult s.crypto s.keysCache doReq k ∧
    ((verifyOne doReq s now k.name k.provider).2).crypto = s.crypto ∧
    ((verifyOne doReq s now k.name k.provider).2).keysCache
      = s.keysCache := by
  unfold verifyOne KeyStorage.GetKeyValue expectedVerifyResult
  cases hl : lookupMap s.keysCache k.name with
  | none =>
    exact ⟨rfl, rfl, rfl⟩
  | some kk =>
    dsimp only
    cases hd : s.crypto.Decrypt kk.valueEncrypted with
    | error e =>
      exact ⟨rfl, rfl, rfl⟩
    | ok v =>
      exact ⟨rfl, logUsage_crypto _ _ _ _ _, logUsage_keysCache _ _ _ _ _⟩

/-- Writing past a prefix writes into the suffix. -/
theorem setIdx_append {α : Type} (l1 l2 : List (Option α)) (v : α) :
    setIdx (l1 ++ l2) l1.length v = l1 ++ setIdx l2 0 v := by
  induction l1 with
  | nil => rfl
  | cons x t ih =>
    show x :: setIdx (t ++ l2) t.length v = x :: (t ++ setIdx l2 0 v)
    rw [ih]

/-- The fill loop writes exactly one result per key, each at its key's
index, leaving everything before the write window alone. -/
theorem verifyFill_spec (doReq : HttpRequest → HttpResult) (now : Nat)
    (c : KeyEncryption) (cache : List (String × APIKey)) :
    ∀ (keys : List APIKey) (s : KeyStorage)
      (front : List (Option VerifyResult)),
      s.crypto = c → s.keysCache = cache →
      (verifyFill doReq now keys front.length
          (front ++ List.replicate keys.length none) s).1
        = front ++ keys.map
            (fun k => some (expectedVerifyResult c cache doReq k)) := by
  intro keys
  induction keys with
  | nil =>
    intro s front h1 h2
    simp [verifyFill]
  | cons k rest ih =>
    intro s front h1 h2
    obtain ⟨hres1, hcr, hca⟩ := verifyOne_spec doReq s now k
    unfold verifyFill
    rcases hvo : verifyOne doReq s now k.name k.provider with ⟨res, s'⟩
    rw [hvo] at hres1 hcr hca
    dsimp only at hres1 hcr hca
    have hres : res = expectedVerifyResult c cache doReq k := by
      rw [hres1, h1, h2]
    have hset : setIdx
        (front ++ List.replicate (k :: rest).length (none : Option VerifyResult))
        front.length res
        = (front ++ [some res]) ++ List.replicate rest.length none := by
      rw [show List.replicate (k :: rest).length (none : Option VerifyResult)
          = none :: List.replicate rest.length none from rfl,
        setIdx_append]
      simp [setIdx]
    dsimp only
    rw [hset]
    have hlen : front.length + 1 = (front ++ [some res]).length := by simp
    rw [hlen,
      ih s' (front ++ [some res]) (hcr.trans h1) (hca.trans h2)]
    simp [hres]

/-- C8: VerifyAll returns exactly one result per selected key, at the same
index as that key in the selection ordering, with no slot left nil — the
whole batch completes; a key whose stored value fails to decrypt yields an
"error"-status result carrying that key's name, and a key that decrypts is
classified by the probe, independently of the other keys. -/
theorem C8_verify_all_results (s : KeyStorage)
    (doReq : HttpRequest → HttpResult) (now : Nat)
    (provider nameFilter : String) :
    (VerifyAll s doReq now provider nameFilter).1
      = (selectVerifyKeys s provider nameFilter).map
          (fun k => some (expectedVerifyResult s.crypto s.keysCache doReq k)) ∧
    (∀ (k kk : APIKey) (e : String),
       lookupMap s.keysCache k.name = some kk →
       s.crypto.Decrypt kk.valueEncrypted = .error e →
       (expectedVerifyResult s.crypto s.keysCache doReq k).status = "error" ∧
       (expectedVerifyResult s.crypto s.keysCache doReq k).name = k.name) ∧
    (∀ (k kk : APIKey) (v : String),
       lookupMap s.keysCache k.name = some kk →
       s.crypto.Decrypt kk.valueEncrypted = .ok v →
       expectedVerifyResult s.crypto s.keysCache doReq k
         = VerifyKey doReq k.name k.provider v) := by
  refine ⟨?_, ?_, ?_⟩
  · unfold VerifyAll
    dsimp only
    by_cases hk : (selectVerifyKeys s provider nameFilter).isEmpty = true
    · rw [if_pos hk, List.isEmpty_iff.mp hk]
      rfl
    · rw [if_neg hk]
      have := verifyFill_spec doReq now s.crypto s.keysCache
        (selectVerifyKeys s provider nameFilter) s [] rfl rfl
      simpa using this
  · intro k kk e hl hd
    unfold expectedVerifyResult
    rw [hl]
    dsimp only
    rw [hd]
    exact ⟨rfl, rfl⟩
  · intro k kk v hl hd
    unfold expectedVerifyResult
    rw [hl]
    dsimp only
    rw [hd]

/-- A record whose value was encrypted under a different (since reset)
master key: decryption fails. -/
def sampleKeyBad : APIKey :=
  NewAPIKey 0 "BAD_KEY" (.token ⟨9, 0, "dead"⟩) "openai"

/-- A store holding one good and one undecryptable record. -/
def sampleStoreMixed : KeyStorage :=
  { sampleStore with
    keysCache := [("OPENAI_KEY", sampleKeyA), ("BAD_KEY", sampleKeyBad)] }

/-- A probe oracle answering HTTP 200 to everything. -/
def okOracle : HttpRequest → HttpResult := fun _ => .status 200

/-- Witness for C8 on the mixed store: the batch result equals the map,
and the undecryptable key is classified as its own error result. -/
theorem C8_verify_all_results_witness :
    (VerifyAll sampleStoreMixed okOracle 3 "" "").1
      = (selectVerifyKeys sampleStoreMixed "" "").map
          (fun k => some (expectedVerifyResult sampleStoreMixed.crypto
            sampleStoreMixed.keysCache okOracle k)) ∧
    lookupMap sampleStoreMixed.keysCache sampleKeyBad.name
      = some sampleKeyBad ∧
    sampleStoreMixed.crypto.Decrypt sampleKeyBad.valueEncrypted
      = .error "decryption failed: invalid token or key" ∧
    (expectedVerifyResult sampleStoreMixed.crypto sampleStoreMixed.keysCache
        okOracle sampleKeyBad).status = "error" ∧
    (expectedVerifyResult sampleStoreMixed.crypto sampleStoreMixed.keysCache
        okOracle sampleKeyBad).name = sampleKeyBad.name :=
  ⟨(C8_verify_all_results sampleStoreMixed okOracle 3 "" "").1,
   by decide, by decide,
   ((C8_verify_all_results sampleStoreMixed okOracle 3 "" "").2.1
     sampleKeyBad sampleKeyBad "decryption failed: invalid token or key"
     (by decide) (by decide)).1,
   ((C8_verify_all_results sampleStoreMixed okOracle 3 "" "").2.1
     sampleKeyBad sampleKeyBad "decryption failed: invalid token or key"
     (by decide) (by decide)).2⟩

end AKM